import Mathlib

/-!
Verification of the PixLab pixel-buffer transformation engine.

The Rust sources under `src/rust-wasm/src/filters/` are shallowly embedded:
raw RGBA buffers become `List Nat` (one entry per byte), `u32` arithmetic is
`Nat` arithmetic reduced mod `2^32` exactly where the source computes in
`u32` (release builds wrap on overflow), slice indexing that would panic in
Rust is modelled by `Option` (`none` = panic), and the formatted error
strings of the source are modelled as tagged errors carrying the same
payloads.  The external photon library used by grayscale/blur and the image
crate used by the metadata service are modelled at their call boundary only,
as the spec declares them external collaborators.
-/

namespace PixLab

/-- Raw RGBA byte buffer: one `Nat` per byte, row-major, 4 bytes per pixel. -/
abbrev Buf := List Nat

/-- Modulus of Rust `u32` arithmetic: `2^32`. -/
def U32 : Nat := 4294967296

/-- Tagged error values.  The Rust functions return `Err(String)` built with
`format!`; each variant keeps the tag and the numeric payloads that the
source interpolates into the message. -/
inductive ImgError where
  | lengthMismatch (expected actual : Nat)
  | outOfBoundsWidth (x cropWidth origWidth : Nat)
  | outOfBoundsHeight (y cropHeight origHeight : Nat)
  | zeroDimension (cropWidth cropHeight : Nat)
  | invalidRadius
deriving DecidableEq

/-- Models the Rust slice expression `&data[i..i+n]`; `none` models the
out-of-bounds panic. -/
def sliceGet (d : Buf) (i n : Nat) : Option Buf :=
  if i + n ≤ d.length then some ((d.drop i).take n) else none

/-- Models `out[i..i+src.len()].copy_from_slice(&src)`; `none` models the
out-of-bounds panic. -/
def sliceSet (d : Buf) (i : Nat) (src : Buf) : Option Buf :=
  if i + src.length ≤ d.length then
    some (d.take i ++ src ++ d.drop (i + src.length))
  else none

/-- One iteration of the per-pixel copy
`output[dst_idx..dst_idx+4].copy_from_slice(&image_data[src_idx..src_idx+4])`. -/
def copyPixel (d out : Buf) (srcIdx dstIdx : Nat) : Option Buf :=
  (sliceGet d srcIdx 4).bind fun px => sliceSet out dstIdx px

/-- The doubly nested `for y in 0..height { for x in 0..width { .. } }`
pixel-copy loop shared by the flip and rotate filters of the source;
`dstPix x y` is the destination pixel index each filter computes. -/
def pixelLoop (d : Buf) (w h : Nat) (dstPix : Nat → Nat → Nat) (out0 : Buf) : Option Buf :=
  (List.range h).foldlM (fun acc y =>
    (List.range w).foldlM (fun acc2 x =>
      copyPixel d acc2 ((y * w + x) * 4) (dstPix x y * 4)) acc) out0

/-- Wrapping `u32` computation of `width * height * 4`, the `expected_len`
of every validated filter. -/
def expectedLen (w h : Nat) : Nat := w * h % U32 * 4 % U32

/-- Embedding of `filters::flip::apply_horizontal`:
`dst_idx = (y * width + (width - 1 - x)) * 4`. -/
def apply_horizontal (d : Buf) (w h : Nat) : Option (Except ImgError Buf) :=
  if d.length ≠ expectedLen w h then
    some (.error (.lengthMismatch (expectedLen w h) d.length))
  else
    (pixelLoop d w h (fun x y => y * w + (w - 1 - x)) (List.replicate d.length 0)).map .ok

/-- Embedding of `filters::flip::apply_vertical`:
`dst_idx = ((height - 1 - y) * width + x) * 4`. -/
def apply_vertical (d : Buf) (w h : Nat) : Option (Except ImgError Buf) :=
  if d.length ≠ expectedLen w h then
    some (.error (.lengthMismatch (expectedLen w h) d.length))
  else
    (pixelLoop d w h (fun x y => (h - 1 - y) * w + x) (List.replicate d.length 0)).map .ok

/-- Embedding of `filters::rotate::rotate_90_cw`:
`new_x = y`, `new_y = width - 1 - x`, `dst_idx = (new_y * height + new_x) * 4`. -/
def rotate_90_cw (d : Buf) (w h : Nat) : Option (Except ImgError Buf) :=
  if d.length ≠ expectedLen w h then
    some (.error (.lengthMismatch (expectedLen w h) d.length))
  else
    (pixelLoop d w h (fun x y => (w - 1 - x) * h + y) (List.replicate d.length 0)).map .ok

/-- Embedding of `filters::rotate::rotate_180`:
`new_x = width - 1 - x`, `new_y = height - 1 - y`, `dst_idx = (new_y * width + new_x) * 4`. -/
def rotate_180 (d : Buf) (w h : Nat) : Option (Except ImgError Buf) :=
  if d.length ≠ expectedLen w h then
    some (.error (.lengthMismatch (expectedLen w h) d.length))
  else
    (pixelLoop d w h (fun x y => (h - 1 - y) * w + (w - 1 - x)) (List.replicate d.length 0)).map .ok

/-- Embedding of `filters::rotate::rotate_270_cw`:
`new_x = height - 1 - y`, `new_y = x`, `dst_idx = (new_y * height + new_x) * 4`. -/
def rotate_270_cw (d : Buf) (w h : Nat) : Option (Except ImgError Buf) :=
  if d.length ≠ expectedLen w h then
    some (.error (.lengthMismatch (expectedLen w h) d.length))
  else
    (pixelLoop d w h (fun x y => x * h + (h - 1 - y)) (List.replicate d.length 0)).map .ok

/-- Embedding of `filters::crop::apply`: length check, the three rectangle
checks in source order, then the row-by-row copy. -/
def crop_apply (d : Buf) (ow oh x y cw ch : Nat) : Option (Except ImgError Buf) :=
  if d.length ≠ expectedLen ow oh then
    some (.error (.lengthMismatch (expectedLen ow oh) d.length))
  else if ow < (x + cw) % U32 then
    some (.error (.outOfBoundsWidth x cw ow))
  else if oh < (y + ch) % U32 then
    some (.error (.outOfBoundsHeight y ch oh))
  else if cw = 0 ∨ ch = 0 then
    some (.error (.zeroDimension cw ch))
  else
    ((List.range ch).foldlM (fun acc r =>
      (sliceGet d (((y + r) * ow + x) * 4) (cw * 4)).bind fun row =>
        sliceSet acc (r * cw * 4) row) (List.replicate (cw * ch * 4) 0)).map .ok

/-- Rust `clamp(v, lo, hi)` (for `lo ≤ hi`): `min (max v lo) hi`. -/
def rustClamp (v lo hi : ℚ) : ℚ := min (max v lo) hi

/-- One colour channel of the brightness filter:
`((channel as f32 + adjustment).clamp(0.0, 255.0)) as u8`.  The `f32`
arithmetic is modelled exactly over `ℚ`; the Rust `as u8` cast truncates
toward zero, which on the clamped non-negative value is the floor. -/
def brightChannel (c : Nat) (adj : ℚ) : Nat :=
  (Rat.floor (rustClamp ((c : Nat) + adj) 0 255)).toNat

/-- The `chunks_exact(4)` loop body of `filters::brightness::apply`:
R, G, B adjusted, alpha copied unchanged; an incomplete trailing chunk is
dropped, as `chunks_exact` does. -/
def brightnessPixels (d : Buf) (adj : ℚ) : Buf :=
  match d with
  | r :: g :: b :: a :: rest =>
      brightChannel r adj :: brightChannel g adj :: brightChannel b adj :: a ::
        brightnessPixels rest adj
  | _ => []

/-- Embedding of `filters::brightness::apply`: length check, clamp the
adjustment to `[-255, 255]`, then the per-pixel map. -/
def brightness_apply (d : Buf) (w h : Nat) (adjustment : ℚ) : Except ImgError Buf :=
  if d.length ≠ expectedLen w h then
    .error (.lengthMismatch (expectedLen w h) d.length)
  else
    .ok (brightnessPixels d (rustClamp adjustment (-255) 255))

/-- A call into the external photon library, recorded with the exact
arguments the source hands over; the library itself is outside the core per
the spec, so its output is not modelled. -/
inductive DelegateCall where
  | photonGrayscale (data : Buf) (w h : Nat)
  | photonGaussianBlur (data : Buf) (w h : Nat) (radius : ℚ)
deriving DecidableEq

/-- Embedding of `filters::grayscale::apply`: no validation at all, the
buffer and dimensions go straight to `PhotonImage::new` / `grayscale`. -/
def grayscale_apply (d : Buf) (w h : Nat) : Except ImgError DelegateCall :=
  .ok (.photonGrayscale d w h)

/-- Embedding of `filters::blur::apply`: rejects `radius <= 0.0` locally,
otherwise delegates to `gaussian_blur`. -/
def blur_apply (d : Buf) (w h : Nat) (radius : ℚ) : Except ImgError DelegateCall :=
  if radius ≤ 0 then .error .invalidRadius
  else .ok (.photonGaussianBlur d w h radius)

/-- Boundary model of the external image crate used by the metadata
service: `withGuessedFormat body` is `none` when `with_guessed_format()`
returns `Err`, otherwise `some fmt?` where `fmt?` is what `reader.format()`
reports; `decodeDims body` is `none` when `reader.decode()` fails. -/
structure ImageLib where
  withGuessedFormat : Buf → Option (Option String)
  decodeDims : Buf → Option (Nat × Nat)

/-- The JSON payload and status of the metadata service response. -/
structure MetaResponse where
  status : Nat
  sizeBytes : Nat
  format : String
  imgWidth : Option Nat
  imgHeight : Option Nat
deriving DecidableEq

/-- Embedding of `Component::handle` of the image-metadata service, after
the body bytes have been read: the format/dimension analysis and the
always-`Ok` JSON response (`http::Response::new` has status 200). -/
def handleMeta (lib : ImageLib) (body : Buf) : MetaResponse :=
  let sizeBytes := body.length
  let fwh : String × Option Nat × Option Nat :=
    if sizeBytes > 0 then
      match lib.withGuessedFormat body with
      | some fmtOpt =>
          let fmtStr := fmtOpt.getD "unknown"
          match lib.decodeDims body with
          | some wh => (fmtStr, some wh.1, some wh.2)
          | none => (fmtStr, none, none)
      | none => ("unknown", none, none)
    else ("none", none, none)
  { status := 200, sizeBytes := sizeBytes, format := fwh.1,
    imgWidth := fwh.2.1, imgHeight := fwh.2.2 }

/-! ### Proof-side definitions: loop steps, coordinate pair lists, and the
denotational (index-map) descriptions of the loop outputs -/

/-- A buffer of `n` bytes whose byte `j` is byte `f j` of `d`. -/
def mapFn (d : Buf) (n : Nat) (f : Nat → Nat) : Buf :=
  (List.range n).map fun j => d.getD (f j) 0

/-- Byte-index source map of `rotate_90_cw`: output byte `j` is input byte
`sigma90 w h j`. -/
def sigma90 (w h j : Nat) : Nat := (j / 4 % h * w + (w - 1 - j / 4 / h)) * 4 + j % 4

/-- Byte-index source map of `rotate_180`. -/
def sigma180 (w h j : Nat) : Nat :=
  ((h - 1 - j / 4 / w) * w + (w - 1 - j / 4 % w)) * 4 + j % 4

/-- Byte-index source map of `rotate_270_cw`. -/
def sigma270 (w h j : Nat) : Nat := ((h - 1 - j / 4 % h) * w + j / 4 / h) * 4 + j % 4

/-- Byte-index source map of `apply_horizontal`. -/
def sigmaH (w j : Nat) : Nat := (j / 4 / w * w + (w - 1 - j / 4 % w)) * 4 + j % 4

/-- Byte-index source map of `apply_vertical`. -/
def sigmaV (w h j : Nat) : Nat := ((h - 1 - j / 4 / w) * w + j / 4 % w) * 4 + j % 4

/-- Byte-index source map of the crop copy with top-left `(x, y)`. -/
def sigmaCrop (ow x y cw j : Nat) : Nat :=
  ((y + j / (cw * 4)) * ow + x) * 4 + j % (cw * 4)

def flipHFn (d : Buf) (w h : Nat) : Buf := mapFn d (w * h * 4) (sigmaH w)

def flipVFn (d : Buf) (w h : Nat) : Buf := mapFn d (w * h * 4) (sigmaV w h)

def rot90Fn (d : Buf) (w h : Nat) : Buf := mapFn d (w * h * 4) (sigma90 w h)

def rot180Fn (d : Buf) (w h : Nat) : Buf := mapFn d (w * h * 4) (sigma180 w h)

def rot270Fn (d : Buf) (w h : Nat) : Buf := mapFn d (w * h * 4) (sigma270 w h)

def cropFn (d : Buf) (ow x y cw ch : Nat) : Buf :=
  mapFn d (cw * ch * 4) (sigmaCrop ow x y cw)

/-- One step of the pixel loop, acting on a `(y, x)` coordinate pair. -/
def pixStep (d : Buf) (w : Nat) (dstPix : Nat → Nat → Nat) (acc : Buf) (p : Nat × Nat) :
    Option Buf :=
  copyPixel d acc ((p.1 * w + p.2) * 4) (dstPix p.2 p.1 * 4)

/-- All `(y, x)` pairs visited by the nested loop, in visit order. -/
def allPairs (h w : Nat) : List (Nat × Nat) :=
  (List.range h).flatMap fun y => (List.range w).map fun x => (y, x)

/-- One iteration of the crop copy loop, for output row `r`. -/
def rowStep (d : Buf) (ow x y cw : Nat) (acc : Buf) (r : Nat) : Option Buf :=
  (sliceGet d (((y + r) * ow + x) * 4) (cw * 4)).bind fun row =>
    sliceSet acc (r * cw * 4) row

/-- Bare PNG signature bytes: sniffed as "png" by the image crate, but not
decodable (no image data follows). -/
def pngMagic : Buf := [137, 80, 78, 71, 13, 10, 26, 10]

/-- Oracle for the external image crate on `pngMagic`: format guessing
succeeds with "png", decoding fails. -/
def pngStubLib : ImageLib :=
  { withGuessedFormat := fun _ => some (some "png"), decodeDims := fun _ => none }

/-! ### Basic list-slice lemmas -/

theorem length_sliceSegment {d : Buf} {i n : Nat} (h : i + n ≤ d.length) :
    ((d.drop i).take n).length = n := by
  simp only [List.length_take, List.length_drop]
  omega

theorem sliceGet_getElem? (d : Buf) (i n c : Nat) :
    ((d.drop i).take n)[c]? = if c < n then d[i + c]? else none := by
  by_cases hc : c < n
  · rw [if_pos hc, List.getElem?_take, if_pos hc, List.getElem?_drop]
  · rw [if_neg hc, List.getElem?_take, if_neg hc]

theorem sliceSet_result_length {d src : Buf} {i : Nat} (h : i + src.length ≤ d.length) :
    (d.take i ++ src ++ d.drop (i + src.length)).length = d.length := by
  simp only [List.length_append, List.length_take, List.length_drop]
  omega

theorem sliceSet_result_getElem? {d src : Buf} {i : Nat} (h : i + src.length ≤ d.length)
    (j : Nat) :
    (d.take i ++ src ++ d.drop (i + src.length))[j]? =
      if i ≤ j ∧ j < i + src.length then src[j - i]? else d[j]? := by
  have hti : (d.take i).length = i := by
    simp only [List.length_take]
    omega
  have htl : (d.take i ++ src).length = i + src.length := by
    simp only [List.length_append, hti]
  rcases Nat.lt_or_ge j i with h1 | h1
  · rw [if_neg (by omega)]
    rw [List.getElem?_append_left (by omega), List.getElem?_append_left (by omega),
      List.getElem?_take, if_pos h1]
  · rcases Nat.lt_or_ge j (i + src.length) with h2 | h2
    · rw [if_pos ⟨h1, h2⟩]
      rw [List.getElem?_append_left (by omega), List.getElem?_append_right (by omega), hti]
    · rw [if_neg (by omega)]
      rw [List.getElem?_append_right (by omega), htl, List.getElem?_drop]
      congr 1
      omega

theorem copyPixel_spec {d out : Buf} {si di : Nat}
    (hs : si + 4 ≤ d.length) (hd : di + 4 ≤ out.length) :
    ∃ res, copyPixel d out si di = some res ∧ res.length = out.length ∧
      ∀ j, res[j]? = if di ≤ j ∧ j < di + 4 then d[si + (j - di)]? else out[j]? := by
  have hlen : ((d.drop si).take 4).length = 4 := length_sliceSegment hs
  have hd4 : di + ((d.drop si).take 4).length ≤ out.length := by rw [hlen]; exact hd
  refine ⟨out.take di ++ (d.drop si).take 4 ++ out.drop (di + 4), ?_, ?_, ?_⟩
  · rw [copyPixel, sliceGet, if_pos hs]
    show sliceSet out di _ = _
    rw [sliceSet, if_pos hd4, hlen]
  · have := sliceSet_result_length hd4
    rw [hlen] at this
    exact this
  · intro j
    have := sliceSet_result_getElem? hd4 j
    rw [hlen] at this
    rw [this]
    by_cases hj : di ≤ j ∧ j < di + 4
    · rw [if_pos hj, if_pos hj, sliceGet_getElem?, if_pos (by omega)]
    · rw [if_neg hj, if_neg hj]

/-! ### Reduction of the nested pixel loop to a fold over coordinate pairs -/

theorem foldlM_flatMap_option {α β γ : Type} (g : γ → List β) (f : α → β → Option α)
    (l : List γ) (init : α) :
    (l.flatMap g).foldlM f init = l.foldlM (fun b c => (g c).foldlM f b) init := by
  induction l generalizing init with
  | nil => rfl
  | cons c l ih =>
      rw [List.flatMap_cons, List.foldlM_append, List.foldlM_cons]
      cases hgc : (g c).foldlM f init with
      | none => simp [hgc]
      | some b => simpa [hgc] using ih b

theorem pixelLoop_eq_foldPairs (d : Buf) (w h : Nat) (dstPix : Nat → Nat → Nat) (out0 : Buf) :
    pixelLoop d w h dstPix out0 = (allPairs h w).foldlM (pixStep d w dstPix) out0 := by
  rw [allPairs, foldlM_flatMap_option, pixelLoop]
  have hfun : (fun (acc : Buf) y => (List.range w).foldlM
        (fun acc2 x => copyPixel d acc2 ((y * w + x) * 4) (dstPix x y * 4)) acc) =
      fun (b : Buf) c => ((List.range w).map fun x => (c, x)).foldlM (pixStep d w dstPix) b := by
    funext b c
    rw [List.foldlM_map]
    rfl
  rw [hfun]

theorem foldPairs_spec (d : Buf) (w : Nat) (dstPix : Nat → Nat → Nat)
    (ps : List (Nat × Nat)) :
    ∀ out0 : Buf,
      (∀ p ∈ ps, (p.1 * w + p.2) * 4 + 4 ≤ d.length) →
      (∀ p ∈ ps, dstPix p.2 p.1 * 4 + 4 ≤ out0.length) →
      ∃ out, ps.foldlM (pixStep d w dstPix) out0 = some out ∧ out.length = out0.length ∧
        ∀ p ∈ ps, (∀ q ∈ ps, dstPix q.2 q.1 = dstPix p.2 p.1 → q = p) →
          ∀ c, c < 4 → out[dstPix p.2 p.1 * 4 + c]? = d[(p.1 * w + p.2) * 4 + c]? := by
  induction ps using List.reverseRecOn with
  | nil =>
      intro out0 _ _
      exact ⟨out0, rfl, rfl, by simp⟩
  | append_singleton ps a ih =>
      intro out0 hsrc hdst
      obtain ⟨mid, hmid, hmidlen, hmidval⟩ := ih out0
        (fun p hp => hsrc p (by simp [hp]))
        (fun p hp => hdst p (by simp [hp]))
      have hsa : (a.1 * w + a.2) * 4 + 4 ≤ d.length := hsrc a (by simp)
      have hda : dstPix a.2 a.1 * 4 + 4 ≤ mid.length := by
        rw [hmidlen]
        exact hdst a (by simp)
      obtain ⟨res, hres, hreslen, hresval⟩ := copyPixel_spec hsa hda
      refine ⟨res, ?_, by rw [hreslen, hmidlen], ?_⟩
      · rw [List.foldlM_append, hmid]
        show (([a] : List (Nat × Nat)).foldlM (pixStep d w dstPix) mid) = some res
        rw [List.foldlM_cons]
        show (pixStep d w dstPix mid a).bind _ = some res
        rw [pixStep, hres]
        rfl
      · intro p hp huniq c hc
        have hval_a : res[dstPix a.2 a.1 * 4 + c]? = d[(a.1 * w + a.2) * 4 + c]? := by
          rw [hresval, if_pos (by omega)]
          congr 1
          omega
        rcases List.mem_append.mp hp with hps | hpa
        · by_cases hpa2 : p = a
          · subst hpa2
            exact hval_a
          · have hda2 : dstPix a.2 a.1 ≠ dstPix p.2 p.1 := by
              intro hEq
              exact hpa2 ((huniq a (by simp) hEq).symm)
            rw [hresval, if_neg (by omega)]
            exact hmidval p hps
              (fun q hq hEq => huniq q (List.mem_append.mpr (Or.inl hq)) hEq) c hc
        · have hpa2 : p = a := by simpa using hpa
          subst hpa2
          exact hval_a

theorem mem_allPairs {h w : Nat} {p : Nat × Nat} :
    p ∈ allPairs h w ↔ p.1 < h ∧ p.2 < w := by
  cases p with
  | mk y x =>
      simp only [allPairs, List.mem_flatMap, List.mem_map, List.mem_range, Prod.mk.injEq]
      constructor
      · rintro ⟨y2, hy2, x2, hx2, rfl, rfl⟩
        exact ⟨hy2, hx2⟩
      · rintro ⟨hy, hx⟩
        exact ⟨y, hy, x, hx, rfl, rfl⟩

theorem pixIndexBound {w h x y : Nat} (hx : x < w) (hy : y < h) :
    (y * w + x) * 4 + 4 ≤ w * h * 4 := by
  have h1 : y * w + x + 1 ≤ h * w := by
    calc y * w + x + 1 ≤ y * w + w := by omega
    _ = (y + 1) * w := by ring
    _ ≤ h * w := Nat.mul_le_mul_right w hy
  calc (y * w + x) * 4 + 4 = (y * w + x + 1) * 4 := by ring
  _ ≤ h * w * 4 := Nat.mul_le_mul_right 4 h1
  _ = w * h * 4 := by ring

theorem pixelLoop_spec (d : Buf) (w h : Nat) (dstPix : Nat → Nat → Nat) (out0 : Buf)
    (hlen : d.length = w * h * 4)
    (hdst : ∀ x y, x < w → y < h → dstPix x y * 4 + 4 ≤ out0.length)
    (hinj : ∀ x y x2 y2, x < w → y < h → x2 < w → y2 < h →
      dstPix x y = dstPix x2 y2 → x = x2 ∧ y = y2) :
    ∃ out, pixelLoop d w h dstPix out0 = some out ∧ out.length = out0.length ∧
      ∀ x y c, x < w → y < h → c < 4 →
        out[dstPix x y * 4 + c]? = d[(y * w + x) * 4 + c]? := by
  rw [pixelLoop_eq_foldPairs]
  obtain ⟨out, h1, h2, h3⟩ := foldPairs_spec d w dstPix (allPairs h w) out0
    (fun p hp => by
      obtain ⟨hp1, hp2⟩ := mem_allPairs.mp hp
      exact hlen ▸ pixIndexBound hp2 hp1)
    (fun p hp => by
      obtain ⟨hp1, hp2⟩ := mem_allPairs.mp hp
      exact hdst p.2 p.1 hp2 hp1)
  refine ⟨out, h1, h2, ?_⟩
  intro x y c hx hy hc
  exact h3 (y, x) (mem_allPairs.mpr ⟨hy, hx⟩)
    (fun q hq hEq => by
      obtain ⟨hq1, hq2⟩ := mem_allPairs.mp hq
      obtain ⟨he1, he2⟩ := hinj q.2 q.1 x y hq2 hq1 hx hy hEq
      exact Prod.ext he2 he1) c hc

/-! ### Denotational descriptions of the loop outputs -/

theorem mapFn_length (d : Buf) (n : Nat) (f : Nat → Nat) : (mapFn d n f).length = n := by
  simp [mapFn]

theorem mapFn_getElem? (d : Buf) (n : Nat) (f : Nat → Nat) (j : Nat) :
    (mapFn d n f)[j]? = if j < n then some (d.getD (f j) 0) else none := by
  by_cases hj : j < n
  · rw [if_pos hj, mapFn, List.getElem?_map, List.getElem?_range hj]
    rfl
  · rw [if_neg hj]
    apply List.getElem?_eq_none
    rw [mapFn_length]
    omega

theorem mapFn_getD {d : Buf} {n : Nat} {f : Nat → Nat} {j : Nat} (hj : j < n) :
    (mapFn d n f).getD j 0 = d.getD (f j) 0 := by
  rw [List.getD_eq_getElem?_getD, mapFn_getElem?, if_pos hj]
  rfl

theorem mapFn_congr {d : Buf} {n : Nat} {f g : Nat → Nat} (h : ∀ j, j < n → f j = g j) :
    mapFn d n f = mapFn d n g := by
  apply List.ext_getElem?
  intro j
  rw [mapFn_getElem?, mapFn_getElem?]
  by_cases hj : j < n
  · rw [if_pos hj, if_pos hj, h j hj]
  · rw [if_neg hj, if_neg hj]

theorem getElem?_eq_some_getD {d : Buf} {i : Nat} (hi : i < d.length) :
    d[i]? = some (d.getD i 0) := by
  rw [List.getD_eq_getElem?_getD, List.getElem?_eq_getElem hi]
  rfl

/-! ### Arithmetic helpers -/

theorem rowColUnique {w a b a2 b2 : Nat} (hb : b < w) (hb2 : b2 < w)
    (heq : a * w + b = a2 * w + b2) : a = a2 ∧ b = b2 := by
  have hw : 0 < w := lt_of_le_of_lt (Nat.zero_le b) hb
  have d1 : (a * w + b) / w = a := by
    rw [Nat.add_comm, Nat.add_mul_div_right _ _ hw, Nat.div_eq_of_lt hb, Nat.zero_add]
  have d2 : (a2 * w + b2) / w = a2 := by
    rw [Nat.add_comm, Nat.add_mul_div_right _ _ hw, Nat.div_eq_of_lt hb2, Nat.zero_add]
  have ha : a = a2 := by rw [← d1, ← d2, heq]
  subst ha
  exact ⟨rfl, by omega⟩

theorem decompPix {m Y X : Nat} (hX : X < m) :
    (Y * m + X) / m = Y ∧ (Y * m + X) % m = X := by
  have hm : 0 < m := lt_of_le_of_lt (Nat.zero_le X) hX
  constructor
  · rw [Nat.add_comm, Nat.add_mul_div_right _ _ hm, Nat.div_eq_of_lt hX, Nat.zero_add]
  · rw [Nat.mul_comm, Nat.mul_add_mod, Nat.mod_eq_of_lt hX]

theorem expectedLen_eq {w h : Nat} (hU : w * h * 4 < U32) : expectedLen w h = w * h * 4 := by
  have h1 : w * h < U32 := lt_of_le_of_lt (Nat.le_mul_of_pos_right _ (by norm_num)) hU
  rw [expectedLen, Nat.mod_eq_of_lt h1, Nat.mod_eq_of_lt hU]

theorem pixBound2 {w h X Y : Nat} (hX : X < w) (hY : Y < h) : Y * w + X < w * h := by
  have h1 : Y * w + X + 1 ≤ h * w := by
    calc Y * w + X + 1 ≤ Y * w + w := by omega
    _ = (Y + 1) * w := by ring
    _ ≤ h * w := Nat.mul_le_mul_right w hY
  calc Y * w + X < Y * w + X + 1 := by omega
  _ ≤ h * w := h1
  _ = w * h := by ring

/-! ### The generic filter characterization -/

theorem pixelLoop_eq_mapFn (d : Buf) (w h : Nat) (dstPix : Nat → Nat → Nat)
    (invX invY : Nat → Nat) (f : Nat → Nat)
    (hlen : d.length = w * h * 4)
    (hP : ∀ x y, x < w → y < h → dstPix x y < w * h)
    (hinj : ∀ x y x2 y2, x < w → y < h → x2 < w → y2 < h →
      dstPix x y = dstPix x2 y2 → x = x2 ∧ y = y2)
    (hinv : ∀ q, q < w * h → invX q < w ∧ invY q < h ∧ dstPix (invX q) (invY q) = q)
    (hf : ∀ j, j < w * h * 4 → f j = (invY (j / 4) * w + invX (j / 4)) * 4 + j % 4) :
    pixelLoop d w h dstPix (List.replicate (w * h * 4) 0) = some (mapFn d (w * h * 4) f) := by
  obtain ⟨out, h1, h2, h3⟩ := pixelLoop_spec d w h dstPix (List.replicate (w * h * 4) 0) hlen
    (fun x y hx hy => by
      rw [List.length_replicate]
      have := hP x y hx hy
      omega)
    hinj
  rw [h1]
  congr 1
  apply List.ext_getElem?
  intro j
  rw [mapFn_getElem?]
  by_cases hj : j < w * h * 4
  · rw [if_pos hj]
    have hq : j / 4 < w * h := by omega
    obtain ⟨hix, hiy, hid⟩ := hinv (j / 4) hq
    have hjeq : j = dstPix (invX (j / 4)) (invY (j / 4)) * 4 + j % 4 := by
      rw [hid]
      omega
    have hsrc_lt : (invY (j / 4) * w + invX (j / 4)) * 4 + j % 4 < d.length := by
      rw [hlen]
      have := pixBound2 hix hiy
      omega
    calc out[j]? = out[dstPix (invX (j / 4)) (invY (j / 4)) * 4 + j % 4]? := by rw [← hjeq]
    _ = d[(invY (j / 4) * w + invX (j / 4)) * 4 + j % 4]? :=
        h3 (invX (j / 4)) (invY (j / 4)) (j % 4) hix hiy (by omega)
    _ = some (d.getD ((invY (j / 4) * w + invX (j / 4)) * 4 + j % 4) 0) :=
        getElem?_eq_some_getD hsrc_lt
    _ = some (d.getD (f j) 0) := by rw [hf j hj]
  · rw [if_neg hj]
    apply List.getElem?_eq_none
    rw [h2, List.length_replicate]
    omega

theorem divLt {q w m : Nat} (hq : q < w * m) (hm : 0 < m) : q / m < w :=
  (Nat.div_lt_iff_lt_mul hm).mpr hq

theorem mulDivAddMod (q m : Nat) : q / m * m + q % m = q := by
  rw [Nat.mul_comm]
  exact Nat.div_add_mod q m

theorem sub1_lt {a : Nat} (t : Nat) (ha : 0 < a) : a - 1 - t < a := by omega

theorem sub1_sub1_cancel {a t : Nat} (h : t < a) : a - 1 - (a - 1 - t) = t := by omega

theorem pos_left_of_lt_mul {q w m : Nat} (hq : q < w * m) : 0 < w := by
  rcases Nat.eq_zero_or_pos w with h0 | h0
  · rw [h0, Nat.zero_mul] at hq
    omega
  · exact h0

theorem pos_right_of_lt_mul {q w m : Nat} (hq : q < w * m) : 0 < m := by
  rcases Nat.eq_zero_or_pos m with h0 | h0
  · rw [h0, Nat.mul_zero] at hq
    omega
  · exact h0

theorem guard_passes {d : Buf} {w h : Nat} (hlen : d.length = w * h * 4)
    (hU : w * h * 4 < U32) : ¬ d.length ≠ expectedLen w h := by
  rw [expectedLen_eq hU, hlen]
  exact not_ne_iff.mpr rfl

theorem rotate_90_cw_ok (d : Buf) (w h : Nat)
    (hlen : d.length = w * h * 4) (hU : w * h * 4 < U32) :
    rotate_90_cw d w h = some (.ok (rot90Fn d w h)) := by
  have hP : ∀ x y, x < w → y < h → (w - 1 - x) * h + y < w * h := by
    intro x y hx hy
    have h1 : (w - 1 - x) * h + y < h * w := pixBound2 hy (by omega)
    rw [Nat.mul_comm w h]
    exact h1
  have hinj : ∀ x y x2 y2, x < w → y < h → x2 < w → y2 < h →
      (w - 1 - x) * h + y = (w - 1 - x2) * h + y2 → x = x2 ∧ y = y2 := by
    intro x y x2 y2 hx hy hx2 hy2 hEq
    obtain ⟨e1, e2⟩ := rowColUnique hy hy2 hEq
    omega
  have hinv : ∀ q, q < w * h → (w - 1 - q / h < w) ∧ (q % h < h) ∧
      ((w - 1 - (w - 1 - q / h)) * h + q % h = q) := by
    intro q hq
    have hh : 0 < h := pos_right_of_lt_mul hq
    have hw : 0 < w := pos_left_of_lt_mul hq
    have hdiv : q / h < w := divLt hq hh
    refine ⟨sub1_lt _ hw, Nat.mod_lt _ hh, ?_⟩
    rw [sub1_sub1_cancel hdiv, mulDivAddMod]
  rw [rotate_90_cw, if_neg (guard_passes hlen hU), hlen,
    pixelLoop_eq_mapFn d w h (fun x y => (w - 1 - x) * h + y)
      (fun q => w - 1 - q / h) (fun q => q % h) (sigma90 w h) hlen hP hinj hinv
      (fun j hj => rfl)]
  rfl

theorem rotate_180_ok (d : Buf) (w h : Nat)
    (hlen : d.length = w * h * 4) (hU : w * h * 4 < U32) :
    rotate_180 d w h = some (.ok (rot180Fn d w h)) := by
  have hP : ∀ x y, x < w → y < h → (h - 1 - y) * w + (w - 1 - x) < w * h := by
    intro x y hx hy
    exact pixBound2 (w := w) (h := h) (X := w - 1 - x) (Y := h - 1 - y) (by omega) (by omega)
  have hinj : ∀ x y x2 y2, x < w → y < h → x2 < w → y2 < h →
      (h - 1 - y) * w + (w - 1 - x) = (h - 1 - y2) * w + (w - 1 - x2) →
      x = x2 ∧ y = y2 := by
    intro x y x2 y2 hx hy hx2 hy2 hEq
    obtain ⟨e1, e2⟩ := rowColUnique (by omega) (by omega) hEq
    omega
  have hinv : ∀ q, q < w * h → (w - 1 - q % w < w) ∧ (h - 1 - q / w < h) ∧
      ((h - 1 - (h - 1 - q / w)) * w + (w - 1 - (w - 1 - q % w)) = q) := by
    intro q hq
    have hh : 0 < h := pos_right_of_lt_mul hq
    have hw : 0 < w := pos_left_of_lt_mul hq
    have hdiv : q / w < h := by
      apply divLt _ hw
      rw [Nat.mul_comm h w]
      exact hq
    have hmod : q % w < w := Nat.mod_lt _ hw
    refine ⟨sub1_lt _ hw, sub1_lt _ hh, ?_⟩
    rw [sub1_sub1_cancel hdiv, sub1_sub1_cancel hmod, mulDivAddMod]
  rw [rotate_180, if_neg (guard_passes hlen hU), hlen,
    pixelLoop_eq_mapFn d w h (fun x y => (h - 1 - y) * w + (w - 1 - x))
      (fun q => w - 1 - q % w) (fun q => h - 1 - q / w) (sigma180 w h) hlen hP hinj hinv
      (fun j hj => rfl)]
  rfl

theorem rotate_270_cw_ok (d : Buf) (w h : Nat)
    (hlen : d.length = w * h * 4) (hU : w * h * 4 < U32) :
    rotate_270_cw d w h = some (.ok (rot270Fn d w h)) := by
  have hP : ∀ x y, x < w → y < h → x * h + (h - 1 - y) < w * h := by
    intro x y hx hy
    have h1 : x * h + (h - 1 - y) < h * w :=
      pixBound2 (w := h) (h := w) (X := h - 1 - y) (Y := x) (by omega) hx
    rw [Nat.mul_comm w h]
    exact h1
  have hinj : ∀ x y x2 y2, x < w → y < h → x2 < w → y2 < h →
      x * h + (h - 1 - y) = x2 * h + (h - 1 - y2) → x = x2 ∧ y = y2 := by
    intro x y x2 y2 hx hy hx2 hy2 hEq
    obtain ⟨e1, e2⟩ := rowColUnique (by omega) (by omega) hEq
    omega
  have hinv : ∀ q, q < w * h → (q / h < w) ∧ (h - 1 - q % h < h) ∧
      ((q / h) * h + (h - 1 - (h - 1 - q % h)) = q) := by
    intro q hq
    have hh : 0 < h := pos_right_of_lt_mul hq
    have hdiv : q / h < w := divLt hq hh
    have hmod : q % h < h := Nat.mod_lt _ hh
    refine ⟨hdiv, sub1_lt _ hh, ?_⟩
    rw [sub1_sub1_cancel hmod, mulDivAddMod]
  rw [rotate_270_cw, if_neg (guard_passes hlen hU), hlen,
    pixelLoop_eq_mapFn d w h (fun x y => x * h + (h - 1 - y))
      (fun q => q / h) (fun q => h - 1 - q % h) (sigma270 w h) hlen hP hinj hinv
      (fun j hj => rfl)]
  rfl

theorem apply_horizontal_ok (d : Buf) (w h : Nat)
    (hlen : d.length = w * h * 4) (hU : w * h * 4 < U32) :
    apply_horizontal d w h = some (.ok (flipHFn d w h)) := by
  have hP : ∀ x y, x < w → y < h → y * w + (w - 1 - x) < w * h := by
    intro x y hx hy
    exact pixBound2 (w := w) (h := h) (X := w - 1 - x) (Y := y) (by omega) hy
  have hinj : ∀ x y x2 y2, x < w → y < h → x2 < w → y2 < h →
      y * w + (w - 1 - x) = y2 * w + (w - 1 - x2) → x = x2 ∧ y = y2 := by
    intro x y x2 y2 hx hy hx2 hy2 hEq
    obtain ⟨e1, e2⟩ := rowColUnique (by omega) (by omega) hEq
    omega
  have hinv : ∀ q, q < w * h → (w - 1 - q % w < w) ∧ (q / w < h) ∧
      ((q / w) * w + (w - 1 - (w - 1 - q % w)) = q) := by
    intro q hq
    have hw : 0 < w := pos_left_of_lt_mul hq
    have hdiv : q / w < h := by
      apply divLt _ hw
      rw [Nat.mul_comm h w]
      exact hq
    have hmod : q % w < w := Nat.mod_lt _ hw
    refine ⟨sub1_lt _ hw, hdiv, ?_⟩
    rw [sub1_sub1_cancel hmod, mulDivAddMod]
  rw [apply_horizontal, if_neg (guard_passes hlen hU), hlen,
    pixelLoop_eq_mapFn d w h (fun x y => y * w + (w - 1 - x))
      (fun q => w - 1 - q % w) (fun q => q / w) (sigmaH w) hlen hP hinj hinv
      (fun j hj => rfl)]
  rfl

theorem apply_vertical_ok (d : Buf) (w h : Nat)
    (hlen : d.length = w * h * 4) (hU : w * h * 4 < U32) :
    apply_vertical d w h = some (.ok (flipVFn d w h)) := by
  have hP : ∀ x y, x < w → y < h → (h - 1 - y) * w + x < w * h := by
    intro x y hx hy
    exact pixBound2 (w := w) (h := h) (X := x) (Y := h - 1 - y) hx (by omega)
  have hinj : ∀ x y x2 y2, x < w → y < h → x2 < w → y2 < h →
      (h - 1 - y) * w + x = (h - 1 - y2) * w + x2 → x = x2 ∧ y = y2 := by
    intro x y x2 y2 hx hy hx2 hy2 hEq
    obtain ⟨e1, e2⟩ := rowColUnique hx hx2 hEq
    omega
  have hinv : ∀ q, q < w * h → (q % w < w) ∧ (h - 1 - q / w < h) ∧
      ((h - 1 - (h - 1 - q / w)) * w + q % w = q) := by
    intro q hq
    have hh : 0 < h := pos_right_of_lt_mul hq
    have hw : 0 < w := pos_left_of_lt_mul hq
    have hdiv : q / w < h := by
      apply divLt _ hw
      rw [Nat.mul_comm h w]
      exact hq
    refine ⟨Nat.mod_lt _ hw, sub1_lt _ hh, ?_⟩
    rw [sub1_sub1_cancel hdiv, mulDivAddMod]
  rw [apply_vertical, if_neg (guard_passes hlen hU), hlen,
    pixelLoop_eq_mapFn d w h (fun x y => (h - 1 - y) * w + x)
      (fun q => q % w) (fun q => h - 1 - q / w) (sigmaV w h) hlen hP hinj hinv
      (fun j hj => rfl)]
  rfl


/-! ### Index algebra for the rotation group -/

theorem byteDecomp {p c : Nat} (hc : c < 4) : (p * 4 + c) / 4 = p ∧ (p * 4 + c) % 4 = c := by
  omega

theorem pixByte_lt {P pix c : Nat} (hpix : pix < P) (hc : c < 4) : pix * 4 + c < P * 4 := by
  calc pix * 4 + c < (pix + 1) * 4 := by omega
  _ ≤ P * 4 := Nat.mul_le_mul_right 4 hpix

theorem sigma90_lt {w h j : Nat} (hj : j < w * h * 4) : sigma90 w h j < w * h * 4 := by
  have hwh : 0 < w * h := pos_left_of_lt_mul hj
  have hw : 0 < w := pos_left_of_lt_mul hwh
  have hh : 0 < h := pos_right_of_lt_mul hwh
  have hpix : j / 4 % h * w + (w - 1 - j / 4 / h) < w * h := by
    rw [Nat.mul_comm w h]
    exact pixBound2 (w := w) (h := h) (X := w - 1 - j / 4 / h) (Y := j / 4 % h)
      (sub1_lt _ hw) (Nat.mod_lt _ hh) |>.trans_eq (Nat.mul_comm w h)
  exact pixByte_lt hpix (Nat.mod_lt _ (by omega))

theorem sigma90_sigma90 {w h j : Nat} (hj : j < w * h * 4) :
    sigma90 w h (sigma90 h w j) = sigma180 w h j := by
  have hwh : 0 < w * h := pos_left_of_lt_mul hj
  have hh : 0 < h := pos_right_of_lt_mul hwh
  have hB : h - 1 - j / 4 / w < h := sub1_lt _ hh
  have hc : j % 4 < 4 := Nat.mod_lt _ (by omega)
  obtain ⟨bd1, bd2⟩ :=
    byteDecomp (p := j / 4 % w * h + (h - 1 - j / 4 / w)) (c := j % 4) hc
  obtain ⟨dp1, dp2⟩ := decompPix (m := h) (Y := j / 4 % w) (X := h - 1 - j / 4 / w) hB
  rw [sigma90, sigma90, sigma180, bd1, bd2, dp1, dp2]

theorem sigma180_sigma90 {w h j : Nat} (hj : j < w * h * 4) :
    sigma180 w h (sigma90 w h j) = sigma270 w h j := by
  have hwh : 0 < w * h := pos_left_of_lt_mul hj
  have hw : 0 < w := pos_left_of_lt_mul hwh
  have hh : 0 < h := pos_right_of_lt_mul hwh
  have hq : j / 4 < w * h := by omega
  have hdiv : j / 4 / h < w := divLt hq hh
  have hB : w - 1 - j / 4 / h < w := sub1_lt _ hw
  have hc : j % 4 < 4 := Nat.mod_lt _ (by omega)
  obtain ⟨bd1, bd2⟩ :=
    byteDecomp (p := j / 4 % h * w + (w - 1 - j / 4 / h)) (c := j % 4) hc
  obtain ⟨dp1, dp2⟩ := decompPix (m := w) (Y := j / 4 % h) (X := w - 1 - j / 4 / h) hB
  rw [sigma90, sigma180, sigma270, bd1, bd2, dp1, dp2, sub1_sub1_cancel hdiv]

theorem sigma270_sigma90 {w h j : Nat} (hj : j < w * h * 4) :
    sigma270 w h (sigma90 h w j) = j := by
  have hwh : 0 < w * h := pos_left_of_lt_mul hj
  have hw : 0 < w := pos_left_of_lt_mul hwh
  have hh : 0 < h := pos_right_of_lt_mul hwh
  have hq : j / 4 < w * h := by omega
  have hdiv : j / 4 / w < h := by
    apply divLt _ hw
    rw [Nat.mul_comm h w]
    exact hq
  have hB : h - 1 - j / 4 / w < h := sub1_lt _ hh
  have hc : j % 4 < 4 := Nat.mod_lt _ (by omega)
  obtain ⟨bd1, bd2⟩ :=
    byteDecomp (p := j / 4 % w * h + (h - 1 - j / 4 / w)) (c := j % 4) hc
  obtain ⟨dp1, dp2⟩ := decompPix (m := h) (Y := j / 4 % w) (X := h - 1 - j / 4 / w) hB
  rw [sigma90, sigma270, bd1, bd2, dp1, dp2, sub1_sub1_cancel hdiv, mulDivAddMod]
  omega

theorem rot90Fn_rot90Fn (d : Buf) (w h : Nat) :
    rot90Fn (rot90Fn d w h) h w = rot180Fn d w h := by
  have hcomm : h * w * 4 = w * h * 4 := by ring
  apply List.ext_getElem?
  intro j
  rw [rot90Fn, rot90Fn, rot180Fn, mapFn_getElem?, mapFn_getElem?, hcomm]
  by_cases hj : j < w * h * 4
  · rw [if_pos hj, if_pos hj]
    have hlt : sigma90 h w j < w * h * 4 := by
      have := sigma90_lt (w := h) (h := w) (j := j) (by omega)
      omega
    rw [mapFn_getD hlt, sigma90_sigma90 hj]
  · rw [if_neg hj, if_neg hj]

theorem rot90Fn_rot180Fn (d : Buf) (w h : Nat) :
    rot90Fn (rot180Fn d w h) w h = rot270Fn d w h := by
  apply List.ext_getElem?
  intro j
  rw [rot90Fn, rot180Fn, rot270Fn, mapFn_getElem?, mapFn_getElem?]
  by_cases hj : j < w * h * 4
  · rw [if_pos hj, if_pos hj]
    have hlt : sigma90 w h j < w * h * 4 := sigma90_lt hj
    rw [mapFn_getD hlt, sigma180_sigma90 hj]
  · rw [if_neg hj, if_neg hj]

theorem rot90Fn_rot270Fn (d : Buf) (w h : Nat) (hlen : d.length = w * h * 4) :
    rot90Fn (rot270Fn d w h) h w = d := by
  have hcomm : h * w * 4 = w * h * 4 := by ring
  apply List.ext_getElem?
  intro j
  rw [rot90Fn, rot270Fn, mapFn_getElem?, hcomm]
  by_cases hj : j < w * h * 4
  · rw [if_pos hj]
    have hlt : sigma90 h w j < w * h * 4 := by
      have := sigma90_lt (w := h) (h := w) (j := j) (by omega)
      omega
    rw [mapFn_getD hlt, sigma270_sigma90 hj]
    exact (getElem?_eq_some_getD (by omega)).symm
  · rw [if_neg hj]
    symm
    apply List.getElem?_eq_none
    omega

theorem rot90Fn_length (d : Buf) (w h : Nat) : (rot90Fn d w h).length = w * h * 4 :=
  mapFn_length d (w * h * 4) (sigma90 w h)

/-! ### Forward pixel mappings of the pure rotation functions -/

theorem rot90Fn_pointwise (d : Buf) (w h : Nat) {x y c : Nat}
    (hx : x < w) (hy : y < h) (hc : c < 4) :
    (rot90Fn d w h).getD (((w - 1 - x) * h + y) * 4 + c) 0 =
      d.getD ((y * w + x) * 4 + c) 0 := by
  have hw : 0 < w := by omega
  have hpix : (w - 1 - x) * h + y < w * h := by
    have h1 : (w - 1 - x) * h + y < h * w :=
      pixBound2 (w := h) (h := w) (X := y) (Y := w - 1 - x) hy (sub1_lt _ hw)
    rw [Nat.mul_comm w h]
    exact h1
  rw [rot90Fn, mapFn_getD (pixByte_lt hpix hc)]
  congr 1
  obtain ⟨bd1, bd2⟩ := byteDecomp (p := (w - 1 - x) * h + y) hc
  obtain ⟨dp1, dp2⟩ := decompPix (m := h) (Y := w - 1 - x) (X := y) hy
  rw [sigma90, bd1, bd2, dp1, dp2, sub1_sub1_cancel hx]

/-! ### Crop: the row-by-row copy loop -/

theorem rowStep_spec {d acc : Buf} {ow x y cw r : Nat}
    (hs : ((y + r) * ow + x) * 4 + cw * 4 ≤ d.length)
    (hd : r * cw * 4 + cw * 4 ≤ acc.length) :
    ∃ res, rowStep d ow x y cw acc r = some res ∧ res.length = acc.length ∧
      ∀ j, res[j]? = if r * cw * 4 ≤ j ∧ j < r * cw * 4 + cw * 4
        then d[((y + r) * ow + x) * 4 + (j - r * cw * 4)]? else acc[j]? := by
  have hlen : ((d.drop (((y + r) * ow + x) * 4)).take (cw * 4)).length = cw * 4 :=
    length_sliceSegment hs
  have hd4 : r * cw * 4 + ((d.drop (((y + r) * ow + x) * 4)).take (cw * 4)).length
      ≤ acc.length := by
    rw [hlen]
    exact hd
  refine ⟨acc.take (r * cw * 4) ++ (d.drop (((y + r) * ow + x) * 4)).take (cw * 4) ++
    acc.drop (r * cw * 4 + cw * 4), ?_, ?_, ?_⟩
  · rw [rowStep, sliceGet, if_pos hs]
    show sliceSet acc (r * cw * 4) _ = _
    rw [sliceSet, if_pos hd4, hlen]
  · have := sliceSet_result_length hd4
    rw [hlen] at this
    exact this
  · intro j
    have := sliceSet_result_getElem? hd4 j
    rw [hlen] at this
    rw [this]
    by_cases hj : r * cw * 4 ≤ j ∧ j < r * cw * 4 + cw * 4
    · rw [if_pos hj, if_pos hj, sliceGet_getElem?, if_pos (by omega)]
    · rw [if_neg hj, if_neg hj]

theorem rowRangeDisjoint {K r a t : Nat} (hne : r ≠ a) (ht : t < K) :
    ¬ (a * K ≤ r * K + t ∧ r * K + t < a * K + K) := by
  rintro ⟨h1, h2⟩
  rcases Nat.lt_or_ge r a with hlt | hge
  · have h3 : (r + 1) * K ≤ a * K := Nat.mul_le_mul_right K hlt
    have h4 : r * K + K ≤ a * K := by
      calc r * K + K = (r + 1) * K := by ring
      _ ≤ a * K := h3
    omega
  · have hgt : a < r := by omega
    have h3 : (a + 1) * K ≤ r * K := Nat.mul_le_mul_right K hgt
    have h4 : a * K + K ≤ r * K := by
      calc a * K + K = (a + 1) * K := by ring
      _ ≤ r * K := h3
    omega

theorem foldRows_spec (d : Buf) (ow x y cw : Nat) (rs : List Nat) :
    ∀ out0 : Buf, rs.Nodup →
      (∀ r ∈ rs, ((y + r) * ow + x) * 4 + cw * 4 ≤ d.length) →
      (∀ r ∈ rs, r * cw * 4 + cw * 4 ≤ out0.length) →
      ∃ out, rs.foldlM (rowStep d ow x y cw) out0 = some out ∧ out.length = out0.length ∧
        ∀ r ∈ rs, ∀ t, t < cw * 4 →
          out[r * cw * 4 + t]? = d[((y + r) * ow + x) * 4 + t]? := by
  induction rs using List.reverseRecOn with
  | nil =>
      intro out0 _ _ _
      exact ⟨out0, rfl, rfl, by simp⟩
  | append_singleton rs a ih =>
      intro out0 hnd hsrc hdst
      have hnd1 : rs.Nodup := hnd.of_append_left
      have hanotin : a ∉ rs := by
        rcases List.nodup_append.mp hnd with ⟨_, _, hdisj⟩
        intro ha
        exact hdisj ha (List.mem_singleton_self a)
      obtain ⟨mid, hmid, hmidlen, hmidval⟩ := ih out0 hnd1
        (fun r hr => hsrc r (by simp [hr]))
        (fun r hr => hdst r (by simp [hr]))
      have hsa : ((y + a) * ow + x) * 4 + cw * 4 ≤ d.length := hsrc a (by simp)
      have hda : a * cw * 4 + cw * 4 ≤ mid.length := by
        rw [hmidlen]
        exact hdst a (by simp)
      obtain ⟨res, hres, hreslen, hresval⟩ := rowStep_spec hsa hda
      refine ⟨res, ?_, by rw [hreslen, hmidlen], ?_⟩
      · rw [List.foldlM_append, hmid]
        show (([a] : List Nat).foldlM (rowStep d ow x y cw) mid) = some res
        rw [List.foldlM_cons]
        show (rowStep d ow x y cw mid a).bind _ = some res
        rw [hres]
        rfl
      · intro r hr t ht
        rcases List.mem_append.mp hr with hrs | hra
        · have hne : r ≠ a := fun hEq => hanotin (hEq ▸ hrs)
          have hnotin : ¬ (a * cw * 4 ≤ r * cw * 4 + t ∧
              r * cw * 4 + t < a * cw * 4 + cw * 4) := by
            have := rowRangeDisjoint (K := cw * 4) (r := r) (a := a) (t := t) hne ht
            have e1 : r * (cw * 4) = r * cw * 4 := by ring
            have e2 : a * (cw * 4) = a * cw * 4 := by ring
            rw [e1, e2] at this
            exact this
          rw [hresval, if_neg hnotin]
          exact hmidval r hrs t ht
        · have hra2 : r = a := by simpa using hra
          subst hra2
          rw [hresval, if_pos (by omega)]
          congr 2
          omega

theorem crop_apply_ok (d : Buf) (ow oh x y cw ch : Nat)
    (hlen : d.length = ow * oh * 4) (hU : ow * oh * 4 < U32)
    (hx : x + cw ≤ ow) (hy : y + ch ≤ oh) (hcw : 0 < cw) (hch : 0 < ch) :
    crop_apply d ow oh x y cw ch = some (.ok (cropFn d ow x y cw ch)) := by
  have how : 0 < ow := by omega
  have hoh : 0 < oh := by omega
  have howU : ow < U32 := by
    have h1 : ow * 1 ≤ ow * (oh * 4) := Nat.mul_le_mul_left ow (by omega)
    have h2 : ow * (oh * 4) = ow * oh * 4 := by ring
    omega
  have hohU : oh < U32 := by
    have h1 : oh * 1 ≤ oh * (ow * 4) := Nat.mul_le_mul_left oh (by omega)
    have h2 : oh * (ow * 4) = ow * oh * 4 := by ring
    omega
  have hmod1 : (x + cw) % U32 = x + cw := Nat.mod_eq_of_lt (by omega)
  have hmod2 : (y + ch) % U32 = y + ch := Nat.mod_eq_of_lt (by omega)
  have hsrcB : ∀ r, r < ch → ((y + r) * ow + x) * 4 + cw * 4 ≤ d.length := by
    intro r hr
    have h1 : (y + r) * ow + x + cw ≤ (y + r + 1) * ow := by
      have : (y + r) * ow + ow = (y + r + 1) * ow := by ring
      omega
    have h2 : (y + r + 1) * ow ≤ oh * ow := Nat.mul_le_mul_right ow (by omega)
    have h3 : ((y + r) * ow + x) * 4 + cw * 4 = ((y + r) * ow + x + cw) * 4 := by ring
    have h4 : ((y + r) * ow + x + cw) * 4 ≤ oh * ow * 4 :=
      Nat.mul_le_mul_right 4 (by omega)
    have h5 : oh * ow * 4 = ow * oh * 4 := by ring
    omega
  have hdstB : ∀ r, r < ch → r * cw * 4 + cw * 4 ≤ cw * ch * 4 := by
    intro r hr
    have h1 : r * cw * 4 + cw * 4 = (r + 1) * cw * 4 := by ring
    have h2 : (r + 1) * cw ≤ ch * cw := Nat.mul_le_mul_right cw (by omega)
    have h3 : (r + 1) * cw * 4 ≤ ch * cw * 4 := Nat.mul_le_mul_right 4 h2
    have h4 : ch * cw * 4 = cw * ch * 4 := by ring
    omega
  obtain ⟨out, ho, holen, hoval⟩ := foldRows_spec d ow x y cw (List.range ch)
    (List.replicate (cw * ch * 4) 0) (List.nodup_range ch)
    (fun r hr => hsrcB r (List.mem_range.mp hr))
    (fun r hr => by
      rw [List.length_replicate]
      exact hdstB r (List.mem_range.mp hr))
  rw [crop_apply, if_neg (guard_passes hlen hU), hmod1, hmod2,
    if_neg (by omega), if_neg (by omega), if_neg (by omega)]
  show ((List.range ch).foldlM (rowStep d ow x y cw)
    (List.replicate (cw * ch * 4) 0)).map Except.ok = _
  rw [ho]
  show some (Except.ok out) = _
  congr 2
  have hK : 0 < cw * 4 := by omega
  apply List.ext_getElem?
  intro j
  rw [cropFn, mapFn_getElem?]
  by_cases hj : j < cw * ch * 4
  · rw [if_pos hj]
    have hjK : j < ch * (cw * 4) := by
      have : ch * (cw * 4) = cw * ch * 4 := by ring
      omega
    have hr : j / (cw * 4) < ch := divLt hjK hK
    have ht : j % (cw * 4) < cw * 4 := Nat.mod_lt _ hK
    have hjeq : j = j / (cw * 4) * cw * 4 + j % (cw * 4) := by
      have h1 : j / (cw * 4) * (cw * 4) + j % (cw * 4) = j := mulDivAddMod j (cw * 4)
      have h2 : j / (cw * 4) * (cw * 4) = j / (cw * 4) * cw * 4 := by ring
      omega
    have hval := hoval (j / (cw * 4)) (List.mem_range.mpr hr) (j % (cw * 4)) ht
    have hidx_lt : ((y + j / (cw * 4)) * ow + x) * 4 + j % (cw * 4) < d.length := by
      have := hsrcB (j / (cw * 4)) hr
      omega
    calc out[j]? = out[j / (cw * 4) * cw * 4 + j % (cw * 4)]? := by rw [← hjeq]
    _ = d[((y + j / (cw * 4)) * ow + x) * 4 + j % (cw * 4)]? := hval
    _ = some (d.getD (((y + j / (cw * 4)) * ow + x) * 4 + j % (cw * 4)) 0) :=
        getElem?_eq_some_getD hidx_lt
    _ = some (d.getD (sigmaCrop ow x y cw j) 0) := by rw [sigmaCrop]
  · rw [if_neg hj]
    apply List.getElem?_eq_none
    rw [holen, List.length_replicate]
    omega

theorem cropFn_length (d : Buf) (ow x y cw ch : Nat) :
    (cropFn d ow x y cw ch).length = cw * ch * 4 :=
  mapFn_length d (cw * ch * 4) (sigmaCrop ow x y cw)

theorem cropFn_pointwise (d : Buf) (ow x y cw ch : Nat) {r t : Nat}
    (hr : r < ch) (ht : t < cw * 4) :
    (cropFn d ow x y cw ch).getD (r * cw * 4 + t) 0 =
      d.getD (((y + r) * ow + x) * 4 + t) 0 := by
  have hidx : r * cw * 4 + t < cw * ch * 4 := by
    have h1 : r * cw * 4 + t < (r + 1) * cw * 4 := by
      have : (r + 1) * cw * 4 = r * cw * 4 + cw * 4 := by ring
      omega
    have h2 : (r + 1) * cw ≤ ch * cw := Nat.mul_le_mul_right cw (by omega)
    have h3 : (r + 1) * cw * 4 ≤ ch * cw * 4 := Nat.mul_le_mul_right 4 h2
    have h4 : ch * cw * 4 = cw * ch * 4 := by ring
    omega
  rw [cropFn, mapFn_getD hidx]
  congr 1
  rw [sigmaCrop, show r * cw * 4 + t = r * (cw * 4) + t from by ring]
  obtain ⟨dp1, dp2⟩ := decompPix (m := cw * 4) (Y := r) (X := t) ht
  rw [dp1, dp2]

theorem cropFn_full (d : Buf) (ow oh : Nat) (hlen : d.length = ow * oh * 4) :
    cropFn d ow 0 0 ow oh = d := by
  apply List.ext_getElem?
  intro j
  rw [cropFn, mapFn_getElem?]
  by_cases hj : j < ow * oh * 4
  · rw [if_pos hj]
    have hσ : sigmaCrop ow 0 0 ow j = j := by
      rw [sigmaCrop]
      have h1 : j / (ow * 4) * (ow * 4) + j % (ow * 4) = j := mulDivAddMod j (ow * 4)
      have h2 : (0 + j / (ow * 4)) * ow + 0 = j / (ow * 4) * ow := by ring
      have h3 : j / (ow * 4) * ow * 4 = j / (ow * 4) * (ow * 4) := by ring
      rw [h2]
      omega
    rw [hσ]
    exact (getElem?_eq_some_getD (by omega)).symm
  · rw [if_neg hj]
    symm
    apply List.getElem?_eq_none
    omega

/-! ### Brightness -/

theorem ratFloor_mono {a b : ℚ} (h : a ≤ b) : Rat.floor a ≤ Rat.floor b :=
  Rat.le_floor.mpr (le_trans (Rat.le_floor.mp le_rfl) h)

theorem ratFloor_natCast (n : Nat) : Rat.floor (n : ℚ) = n := by
  rw [Rat.floor_def', Rat.num_natCast, Rat.den_natCast]
  simp

theorem ratFloor_intCast (z : ℤ) : Rat.floor (z : ℚ) = z := by
  rw [Rat.floor_def', Rat.num_intCast, Rat.den_intCast]
  simp

theorem brightChannel_le_255 (c : Nat) (adj : ℚ) : brightChannel c adj ≤ 255 := by
  rw [brightChannel]
  have h1 : rustClamp ((c : ℚ) + adj) 0 255 ≤ ((255 : Nat) : ℚ) := by
    push_cast
    exact min_le_right _ _
  have h2 : Rat.floor (rustClamp ((c : ℚ) + adj) 0 255) ≤ (255 : ℤ) := by
    have := ratFloor_mono h1
    rwa [ratFloor_natCast] at this
  omega

theorem le_brightChannel {c : Nat} (adj : ℚ) (hc : c ≤ 255) (ha : 0 < adj) :
    c ≤ brightChannel c adj := by
  rw [brightChannel]
  have h1 : ((c : ℤ) : ℚ) ≤ rustClamp ((c : ℚ) + adj) 0 255 := by
    rw [rustClamp]
    apply le_min
    · apply le_max_of_le_left
      push_cast
      linarith
    · push_cast
      exact_mod_cast hc
  have h2 : (c : ℤ) ≤ Rat.floor (rustClamp ((c : ℚ) + adj) 0 255) := Rat.le_floor.mpr h1
  omega

theorem brightChannel_le {c : Nat} (adj : ℚ) (ha : adj < 0) :
    brightChannel c adj ≤ c := by
  rw [brightChannel]
  have h1 : rustClamp ((c : ℚ) + adj) 0 255 ≤ ((c : ℤ) : ℚ) := by
    rw [rustClamp]
    apply le_trans (min_le_left _ _)
    apply max_le
    · push_cast
      linarith
    · push_cast
      positivity
  have h2 : Rat.floor (rustClamp ((c : ℚ) + adj) 0 255) ≤ (c : ℤ) := by
    have := ratFloor_mono h1
    rwa [ratFloor_intCast] at this
  omega

theorem brightnessPixels_length (adj : ℚ) :
    ∀ d : Buf, d.length % 4 = 0 → (brightnessPixels d adj).length = d.length
  | [], _ => rfl
  | [_], hl => by simp at hl
  | [_, _], hl => by simp at hl
  | [_, _, _], hl => by simp at hl
  | r :: g :: b :: a :: rest, hl => by
      have hrest : rest.length % 4 = 0 := by
        simp only [List.length_cons] at hl
        omega
      have ih := brightnessPixels_length adj rest hrest
      simp [brightnessPixels, ih]

theorem brightnessPixels_getElem? (adj : ℚ) :
    ∀ d : Buf, d.length % 4 = 0 → ∀ j,
      (brightnessPixels d adj)[j]? =
        (d[j]?).map (fun v => if j % 4 = 3 then v else brightChannel v adj)
  | [], _, j => by simp [brightnessPixels]
  | [_], hl, _ => by simp at hl
  | [_, _], hl, _ => by simp at hl
  | [_, _, _], hl, _ => by simp at hl
  | r :: g :: b :: a :: rest, hl, j => by
      have hrest : rest.length % 4 = 0 := by
        simp only [List.length_cons] at hl
        omega
      match j with
      | 0 => simp [brightnessPixels]
      | 1 => simp [brightnessPixels]
      | 2 => simp [brightnessPixels]
      | 3 => simp [brightnessPixels]
      | (k + 4) =>
          have ih := brightnessPixels_getElem? adj rest hrest k
          have hmod : (k + 4) % 4 = k % 4 := by omega
          show (brightChannel r adj :: brightChannel g adj :: brightChannel b adj :: a ::
            brightnessPixels rest adj)[k + 4]? = _
          simp only [List.getElem?_cons_succ, hmod]
          exact ih

theorem brightnessPixels_getD {d : Buf} {adj : ℚ} (hmod : d.length % 4 = 0) {j : Nat}
    (hj : j < d.length) :
    (brightnessPixels d adj).getD j 0 =
      if j % 4 = 3 then d.getD j 0 else brightChannel (d.getD j 0) adj := by
  rw [List.getD_eq_getElem?_getD, brightnessPixels_getElem? adj d hmod j,
    getElem?_eq_some_getD hj]
  by_cases h3 : j % 4 = 3
  · rw [if_pos h3]
    simp [h3]
  · rw [if_neg h3]
    simp [h3]

theorem getD_le_of_all {d : Buf} (hall : ∀ b ∈ d, b ≤ 255) {j : Nat} (hj : j < d.length) :
    d.getD j 0 ≤ 255 := by
  rw [List.getD_eq_getElem?_getD, List.getElem?_eq_getElem hj]
  exact hall _ (List.getElem_mem hj)

/-! ### Claim theorems -/

/-- C1: for every buffer of length `width * height * 4` (a length any real
wasm32 slice satisfies together with `length < 2^32`), `rotate_90_cw`
succeeds and returns the buffer of the swapped dimensions in which the RGBA
pixel of the input at `(x, y)` appears at `new_x = y`,
`new_y = width - 1 - x`, addressed row-major against the swapped width (the
original height); the quantifiers cover 1-by-N and N-by-1 buffers. -/
theorem c1_rotate90_mapping (d : Buf) (w h : Nat)
    (hlen : d.length = w * h * 4) (hmem : d.length < U32) :
    rotate_90_cw d w h = some (.ok (rot90Fn d w h)) ∧
    (rot90Fn d w h).length = h * w * 4 ∧
    ∀ x y c, x < w → y < h → c < 4 →
      (rot90Fn d w h).getD (((w - 1 - x) * h + y) * 4 + c) 0 =
        d.getD ((y * w + x) * 4 + c) 0 := by
  have hU : w * h * 4 < U32 := hlen ▸ hmem
  refine ⟨rotate_90_cw_ok d w h hlen hU, by rw [rot90Fn_length]; ring, ?_⟩
  intro x y c hx hy hc
  exact rot90Fn_pointwise d w h hx hy hc

/-- C1 witness: the repository's own 2-by-1 unit test `[Red][Blue]`,
rotated to the 1-by-2 buffer `[Blue], [Red]`. -/
theorem c1_rotate90_mapping_witness :
    ([255, 0, 0, 255, 0, 0, 255, 255] : Buf).length = 2 * 1 * 4 ∧
    ([255, 0, 0, 255, 0, 0, 255, 255] : Buf).length < U32 ∧
    (rotate_90_cw [255, 0, 0, 255, 0, 0, 255, 255] 2 1 =
      some (.ok (rot90Fn [255, 0, 0, 255, 0, 0, 255, 255] 2 1))) ∧
    rot90Fn [255, 0, 0, 255, 0, 0, 255, 255] 2 1 = [0, 0, 255, 255, 255, 0, 0, 255] :=
  ⟨by decide, by decide,
    (c1_rotate90_mapping [255, 0, 0, 255, 0, 0, 255, 255] 2 1 (by decide) (by decide)).1,
    by decide⟩

/-- C2 (amended): the operations that validate at all — horizontal flip,
vertical flip, the three rotations, crop and brightness — return a
`LengthMismatch` carrying exactly `(expected, actual)` before touching any
pixel whenever the buffer length differs from the `u32`-computed
`width * height * 4` (which equals the mathematical product whenever that
product fits in `u32`); grayscale and blur perform no such check. -/
theorem c2_length_validation (d : Buf) (w h x y cw ch : Nat) (adj : ℚ)
    (hne : d.length ≠ expectedLen w h) :
    apply_horizontal d w h = some (.error (.lengthMismatch (expectedLen w h) d.length)) ∧
    apply_vertical d w h = some (.error (.lengthMismatch (expectedLen w h) d.length)) ∧
    rotate_90_cw d w h = some (.error (.lengthMismatch (expectedLen w h) d.length)) ∧
    rotate_180 d w h = some (.error (.lengthMismatch (expectedLen w h) d.length)) ∧
    rotate_270_cw d w h = some (.error (.lengthMismatch (expectedLen w h) d.length)) ∧
    crop_apply d w h x y cw ch =
      some (.error (.lengthMismatch (expectedLen w h) d.length)) ∧
    brightness_apply d w h adj = .error (.lengthMismatch (expectedLen w h) d.length) ∧
    (w * h * 4 < U32 → expectedLen w h = w * h * 4) :=
  ⟨by rw [apply_horizontal, if_pos hne], by rw [apply_vertical, if_pos hne],
   by rw [rotate_90_cw, if_pos hne], by rw [rotate_180, if_pos hne],
   by rw [rotate_270_cw, if_pos hne], by rw [crop_apply, if_pos hne],
   by rw [brightness_apply, if_pos hne], fun hU => expectedLen_eq hU⟩

/-- C2 counterexample: a 3-byte buffer with declared dimensions 1-by-1
(expected length 4) is not rejected by grayscale or blur; both hand the
mismatched buffer straight to the external library and return `Ok`, so the
claim's "every operation that takes declared dimensions" fails for them. -/
theorem c2_counterexample :
    ([0, 0, 0] : Buf).length ≠ 1 * 1 * 4 ∧
    grayscale_apply [0, 0, 0] 1 1 = .ok (.photonGrayscale [0, 0, 0] 1 1) ∧
    blur_apply [0, 0, 0] 1 1 2 = .ok (.photonGaussianBlur [0, 0, 0] 1 1 2) := by
  refine ⟨by decide, rfl, ?_⟩
  rw [blur_apply, if_neg (by norm_num)]

/-- C2 witness: a 3-byte buffer declared 1-by-1 makes every validating
operation return `LengthMismatch (4, 3)`. -/
theorem c2_length_validation_witness :
    ([0, 0, 0] : Buf).length ≠ expectedLen 1 1 ∧
    apply_horizontal [0, 0, 0] 1 1 =
      some (.error (.lengthMismatch (expectedLen 1 1) 3)) ∧
    brightness_apply [0, 0, 0] 1 1 5 = .error (.lengthMismatch (expectedLen 1 1) 3) ∧
    expectedLen 1 1 = 4 :=
  ⟨by decide,
   (c2_length_validation [0, 0, 0] 1 1 0 0 0 0 5 (by decide)).1,
   (c2_length_validation [0, 0, 0] 1 1 0 0 0 0 5 (by decide)).2.2.2.2.2.2.1,
   by decide⟩

/-- C3: the code, not the claim, is wrong at `u32` overflow.  With
width 1 and height `2^30` the wrapping `u32` product `width * height * 4`
is 0, so the empty buffer passes the length check and the first pixel copy
indexes out of bounds (`none` = the Rust panic).  Likewise a crop whose
`x + crop_width` wraps past `u32::MAX` passes the rectangle check and then
indexes out of bounds.  The claim says such inputs must produce a
validation error, which matches the spec's stated invariant. -/
theorem c3_overflow_out_of_bounds :
    apply_horizontal [] 1 1073741824 = none ∧
    crop_apply (List.replicate 4 0) 1 1 4294967295 0 2 1 = none := by
  constructor
  · have hrange : List.range 1073741824 = 0 :: (List.range 1073741823).map Nat.succ := by
      rw [show (1073741824 : Nat) = 1073741823 + 1 by norm_num]
      exact List.range_succ_eq_map 1073741823
    rw [apply_horizontal, if_neg (by decide), pixelLoop, hrange]
    rfl
  · rfl

/-- C4: the rotation group laws.  Under the valid-buffer precondition all
four successive `rotate_90_cw` calls succeed (threading the swapped
dimensions), the fourth output is byte-equal to the input,
`rotate_180` equals two 90-degree rotations and `rotate_270_cw` equals
three. -/
theorem c4_rotation_group (d : Buf) (w h : Nat)
    (hlen : d.length = w * h * 4) (hU : w * h * 4 < U32) :
    rotate_90_cw d w h = some (.ok (rot90Fn d w h)) ∧
    rotate_90_cw (rot90Fn d w h) h w = some (.ok (rot90Fn (rot90Fn d w h) h w)) ∧
    rotate_90_cw (rot90Fn (rot90Fn d w h) h w) w h =
      some (.ok (rot90Fn (rot90Fn (rot90Fn d w h) h w) w h)) ∧
    rotate_90_cw (rot90Fn (rot90Fn (rot90Fn d w h) h w) w h) h w =
      some (.ok (rot90Fn (rot90Fn (rot90Fn (rot90Fn d w h) h w) w h) h w)) ∧
    rot90Fn (rot90Fn (rot90Fn (rot90Fn d w h) h w) w h) h w = d ∧
    rotate_180 d w h = some (.ok (rot90Fn (rot90Fn d w h) h w)) ∧
    rotate_270_cw d w h = some (.ok (rot90Fn (rot90Fn (rot90Fn d w h) h w) w h)) := by
  have hU1 : h * w * 4 < U32 := by
    rw [Nat.mul_comm h w]
    exact hU
  have hlen1 : (rot90Fn d w h).length = h * w * 4 := by
    rw [rot90Fn_length]
    ring
  have hlen2 : (rot90Fn (rot90Fn d w h) h w).length = w * h * 4 := by
    rw [rot90Fn_length]
    ring
  have hlen3 : (rot90Fn (rot90Fn (rot90Fn d w h) h w) w h).length = h * w * 4 := by
    rw [rot90Fn_length]
    ring
  refine ⟨rotate_90_cw_ok d w h hlen hU,
    rotate_90_cw_ok _ h w hlen1 hU1,
    rotate_90_cw_ok _ w h hlen2 hU,
    rotate_90_cw_ok _ h w hlen3 hU1, ?_, ?_, ?_⟩
  · rw [rot90Fn_rot90Fn d w h, rot90Fn_rot180Fn d w h, rot90Fn_rot270Fn d w h hlen]
  · rw [rot90Fn_rot90Fn d w h]
    exact rotate_180_ok d w h hlen hU
  · rw [rot90Fn_rot90Fn d w h, rot90Fn_rot180Fn d w h]
    exact rotate_270_cw_ok d w h hlen hU

/-- C4 witness: the 2-by-1 `[Red][Blue]` buffer returns to itself after
four 90-degree rotations, and the 180/270 decompositions hold there. -/
theorem c4_rotation_group_witness :
    rot90Fn (rot90Fn (rot90Fn (rot90Fn [255, 0, 0, 255, 0, 0, 255, 255] 2 1) 1 2) 2 1) 1 2 =
      [255, 0, 0, 255, 0, 0, 255, 255] ∧
    rotate_180 [255, 0, 0, 255, 0, 0, 255, 255] 2 1 =
      some (.ok (rot90Fn (rot90Fn [255, 0, 0, 255, 0, 0, 255, 255] 2 1) 1 2)) ∧
    rotate_270_cw [255, 0, 0, 255, 0, 0, 255, 255] 2 1 =
      some (.ok (rot90Fn (rot90Fn (rot90Fn [255, 0, 0, 255, 0, 0, 255, 255] 2 1) 1 2) 2 1)) :=
  ⟨(c4_rotation_group [255, 0, 0, 255, 0, 0, 255, 255] 2 1 (by decide) (by decide)).2.2.2.2.1,
   (c4_rotation_group [255, 0, 0, 255, 0, 0, 255, 255] 2 1 (by decide) (by decide)).2.2.2.2.2.1,
   (c4_rotation_group [255, 0, 0, 255, 0, 0, 255, 255] 2 1 (by decide) (by decide)).2.2.2.2.2.2⟩

/-- C5: for every valid buffer and crop rectangle passing all checks, crop
returns a buffer of length `crop_width * crop_height * 4` whose row `r`
equals the input bytes starting at `((y + r) * orig_width + x) * 4`; and
cropping the full rectangle `(0, 0, width, height)` returns the input
byte-for-byte. -/
theorem c5_crop_row_copy (d : Buf) (ow oh x y cw ch : Nat)
    (hlen : d.length = ow * oh * 4) (hU : ow * oh * 4 < U32)
    (hx : x + cw ≤ ow) (hy : y + ch ≤ oh) (hcw : 0 < cw) (hch : 0 < ch) :
    crop_apply d ow oh x y cw ch = some (.ok (cropFn d ow x y cw ch)) ∧
    (cropFn d ow x y cw ch).length = cw * ch * 4 ∧
    (∀ r t, r < ch → t < cw * 4 →
      (cropFn d ow x y cw ch).getD (r * cw * 4 + t) 0 =
        d.getD (((y + r) * ow + x) * 4 + t) 0) ∧
    crop_apply d ow oh 0 0 ow oh = some (.ok d) := by
  refine ⟨crop_apply_ok d ow oh x y cw ch hlen hU hx hy hcw hch,
    cropFn_length d ow x y cw ch,
    fun r t hr ht => cropFn_pointwise d ow x y cw ch hr ht, ?_⟩
  have h1 := crop_apply_ok d ow oh 0 0 ow oh hlen hU (by omega) (by omega)
    (by omega) (by omega)
  rwa [cropFn_full d ow oh hlen] at h1

/-- C5 witness: the repository's 4-by-4 unit test; cropping `(1,1,2,2)`
extracts exactly the middle 2-by-2 block, and the full-rectangle crop is
the identity. -/
theorem c5_crop_row_copy_witness :
    crop_apply [255, 0, 0, 255, 0, 255, 0, 255, 0, 0, 255, 255, 255, 255, 255, 255,
        255, 255, 0, 255, 255, 0, 255, 255, 0, 255, 255, 255, 0, 0, 0, 255,
        128, 0, 0, 255, 0, 128, 0, 255, 0, 0, 128, 255, 128, 128, 128, 255,
        128, 128, 0, 255, 128, 0, 128, 255, 0, 128, 128, 255, 0, 0, 0, 255] 4 4 1 1 2 2 =
      some (.ok (cropFn [255, 0, 0, 255, 0, 255, 0, 255, 0, 0, 255, 255, 255, 255, 255, 255,
        255, 255, 0, 255, 255, 0, 255, 255, 0, 255, 255, 255, 0, 0, 0, 255,
        128, 0, 0, 255, 0, 128, 0, 255, 0, 0, 128, 255, 128, 128, 128, 255,
        128, 128, 0, 255, 128, 0, 128, 255, 0, 128, 128, 255, 0, 0, 0, 255] 4 1 1 2 2)) ∧
    cropFn [255, 0, 0, 255, 0, 255, 0, 255, 0, 0, 255, 255, 255, 255, 255, 255,
        255, 255, 0, 255, 255, 0, 255, 255, 0, 255, 255, 255, 0, 0, 0, 255,
        128, 0, 0, 255, 0, 128, 0, 255, 0, 0, 128, 255, 128, 128, 128, 255,
        128, 128, 0, 255, 128, 0, 128, 255, 0, 128, 128, 255, 0, 0, 0, 255] 4 1 1 2 2 =
      [255, 0, 255, 255, 0, 255, 255, 255, 0, 128, 0, 255, 0, 0, 128, 255] :=
  ⟨(c5_crop_row_copy [255, 0, 0, 255, 0, 255, 0, 255, 0, 0, 255, 255, 255, 255, 255, 255,
        255, 255, 0, 255, 255, 0, 255, 255, 0, 255, 255, 255, 0, 0, 0, 255,
        128, 0, 0, 255, 0, 128, 0, 255, 0, 0, 128, 255, 128, 128, 128, 255,
        128, 128, 0, 255, 128, 0, 128, 255, 0, 128, 128, 255, 0, 0, 0, 255] 4 4 1 1 2 2
      (by decide) (by decide) (by decide) (by decide) (by decide) (by decide)).1,
   by decide⟩

/-- C6: when the buffer length matches the declared dimensions, the crop
rectangle checks are evaluated in source order — width first, then height,
then zero-dimension — so the first-reported error is deterministic when
several violations coexist. -/
theorem c6_crop_error_order (d : Buf) (ow oh x y cw ch : Nat)
    (hlen : d.length = expectedLen ow oh) (how : ow < U32) (hoh : oh < U32) :
    (ow < x + cw → x + cw < U32 →
      crop_apply d ow oh x y cw ch = some (.error (.outOfBoundsWidth x cw ow))) ∧
    (x + cw ≤ ow → oh < y + ch → y + ch < U32 →
      crop_apply d ow oh x y cw ch = some (.error (.outOfBoundsHeight y ch oh))) ∧
    (x + cw ≤ ow → y + ch ≤ oh → (cw = 0 ∨ ch = 0) →
      crop_apply d ow oh x y cw ch = some (.error (.zeroDimension cw ch))) := by
  refine ⟨fun h1 h2 => ?_, fun h1 h2 h3 => ?_, fun h1 h2 h3 => ?_⟩
  · rw [crop_apply, if_neg (not_ne_iff.mpr hlen),
      if_pos (by rw [Nat.mod_eq_of_lt h2]; exact h1)]
  · rw [crop_apply, if_neg (not_ne_iff.mpr hlen),
      if_neg (by rw [Nat.mod_eq_of_lt (by omega)]; omega),
      if_pos (by rw [Nat.mod_eq_of_lt h3]; exact h2)]
  · rw [crop_apply, if_neg (not_ne_iff.mpr hlen),
      if_neg (by rw [Nat.mod_eq_of_lt (by omega)]; omega),
      if_neg (by rw [Nat.mod_eq_of_lt (by omega)]; omega),
      if_pos h3]

/-- C6 witness: the spec's concrete scenario — rectangle `(1, 0, 2, 1)` on
a 2-by-1 image reports `OutOfBoundsWidth`; with a simultaneous height
violation `(1, 1, 2, 5)` the width error still comes first. -/
theorem c6_crop_error_order_witness :
    crop_apply (List.replicate 8 0) 2 1 1 0 2 1 =
      some (.error (.outOfBoundsWidth 1 2 2)) ∧
    crop_apply (List.replicate 8 0) 2 1 1 1 2 5 =
      some (.error (.outOfBoundsWidth 1 2 2)) :=
  ⟨(c6_crop_error_order (List.replicate 8 0) 2 1 1 0 2 1 (by decide) (by decide)
      (by decide)).1 (by decide) (by decide),
   (c6_crop_error_order (List.replicate 8 0) 2 1 1 1 2 5 (by decide) (by decide)
      (by decide)).1 (by decide) (by decide)⟩

/-- C7: brightness first clamps the adjustment to `[-255, 255]` and then
maps each R, G, B channel through `clamp(channel + adjustment, 0, 255)`
(conjuncts 1 and 4); alpha bytes are copied unchanged (conjunct 3); the
length is preserved (conjunct 2); a positive adjustment never decreases and
a negative one never increases a colour channel (conjuncts 5 and 6); and no
output byte exceeds 255 (conjunct 7; bytes are naturals, so none is below
0). -/
theorem c7_brightness (d : Buf) (w h : Nat) (adj : ℚ)
    (hlen : d.length = w * h * 4) (hmem : d.length < U32)
    (hbytes : ∀ b ∈ d, b ≤ 255) :
    brightness_apply d w h adj = .ok (brightnessPixels d (rustClamp adj (-255) 255)) ∧
    (brightnessPixels d (rustClamp adj (-255) 255)).length = d.length ∧
    (∀ j, j < d.length → j % 4 = 3 →
      (brightnessPixels d (rustClamp adj (-255) 255)).getD j 0 = d.getD j 0) ∧
    (∀ j, j < d.length → j % 4 ≠ 3 →
      (brightnessPixels d (rustClamp adj (-255) 255)).getD j 0 =
        brightChannel (d.getD j 0) (rustClamp adj (-255) 255)) ∧
    (0 < adj → ∀ j, j < d.length → j % 4 ≠ 3 →
      d.getD j 0 ≤ (brightnessPixels d (rustClamp adj (-255) 255)).getD j 0) ∧
    (adj < 0 → ∀ j, j < d.length → j % 4 ≠ 3 →
      (brightnessPixels d (rustClamp adj (-255) 255)).getD j 0 ≤ d.getD j 0) ∧
    (∀ j, j < d.length →
      (brightnessPixels d (rustClamp adj (-255) 255)).getD j 0 ≤ 255) := by
  have hU : w * h * 4 < U32 := hlen ▸ hmem
  have hm4 : d.length % 4 = 0 := by omega
  refine ⟨by rw [brightness_apply, if_neg (guard_passes hlen hU)],
    brightnessPixels_length _ d hm4,
    fun j hj h3 => by rw [brightnessPixels_getD hm4 hj, if_pos h3],
    fun j hj h3 => by rw [brightnessPixels_getD hm4 hj, if_neg h3],
    fun hpos j hj h3 => ?_, fun hneg j hj h3 => ?_, fun j hj => ?_⟩
  · rw [brightnessPixels_getD hm4 hj, if_neg h3]
    apply le_brightChannel _ (getD_le_of_all hbytes hj)
    rw [rustClamp]
    exact lt_min (lt_max_of_lt_left hpos) (by norm_num)
  · rw [brightnessPixels_getD hm4 hj, if_neg h3]
    apply brightChannel_le
    rw [rustClamp]
    exact lt_of_le_of_lt (min_le_left _ _) (max_lt hneg (by norm_num))
  · rw [brightnessPixels_getD hm4 hj]
    by_cases h3 : j % 4 = 3
    · rw [if_pos h3]
      exact getD_le_of_all hbytes hj
    · rw [if_neg h3]
      exact brightChannel_le_255 _ _

/-- C7 witness: the repository's unit tests — `+50` on `(50,50,50,255)`
gives `(100,100,100,255)`, `+100` on `(250,250,250,255)` clamps to
`(255,255,255,255)`. -/
theorem c7_brightness_witness :
    brightness_apply [50, 50, 50, 255] 1 1 50 =
      .ok (brightnessPixels [50, 50, 50, 255] (rustClamp 50 (-255) 255)) ∧
    brightnessPixels [50, 50, 50, 255] (rustClamp 50 (-255) 255) = [100, 100, 100, 255] ∧
    brightness_apply [250, 250, 250, 255] 1 1 100 =
      .ok (brightnessPixels [250, 250, 250, 255] (rustClamp 100 (-255) 255)) ∧
    brightnessPixels [250, 250, 250, 255] (rustClamp 100 (-255) 255) =
      [255, 255, 255, 255] :=
  ⟨(c7_brightness [50, 50, 50, 255] 1 1 50 (by decide) (by decide) (by decide)).1,
   by
    have hc : rustClamp 50 (-255) 255 = 50 := by
      rw [rustClamp, max_eq_left (by norm_num), min_eq_left (by norm_num)]
    have hch : brightChannel 50 50 = 100 := by
      rw [brightChannel, rustClamp]
      norm_num [Rat.floor_def', Rat.num_ofNat, Rat.den_ofNat]
      all_goals omega
    rw [hc]
    simp [brightnessPixels, hch],
   (c7_brightness [250, 250, 250, 255] 1 1 100 (by decide) (by decide) (by decide)).1,
   by
    have hc : rustClamp 100 (-255) 255 = 100 := by
      rw [rustClamp, max_eq_left (by norm_num), min_eq_left (by norm_num)]
    have hch : brightChannel 250 100 = 255 := by
      rw [brightChannel, rustClamp]
      norm_num [Rat.floor_def', Rat.num_ofNat, Rat.den_ofNat]
      all_goals omega
    rw [hc]
    simp [brightnessPixels, hch]⟩

/-- C8: blur with a non-positive radius is rejected locally with
`InvalidRadius`; since the result is an error, no `DelegateCall` value is
produced, i.e. the external library is not invoked on that path. -/
theorem c8_blur_invalid_radius (d : Buf) (w h : Nat) (r : ℚ) (hr : r ≤ 0) :
    blur_apply d w h r = .error .invalidRadius ∧
    ∀ call : DelegateCall, blur_apply d w h r ≠ .ok call := by
  have h1 : blur_apply d w h r = .error .invalidRadius := by
    rw [blur_apply, if_pos hr]
  refine ⟨h1, fun call hcall => ?_⟩
  rw [h1] at hcall
  exact Except.noConfusion hcall

/-- C8 witness: radius 0 and radius -1 are both rejected. -/
theorem c8_blur_invalid_radius_witness :
    blur_apply [255, 0, 0, 255] 1 1 0 = .error .invalidRadius ∧
    blur_apply [255, 0, 0, 255] 1 1 (-1) = .error .invalidRadius :=
  ⟨(c8_blur_invalid_radius [255, 0, 0, 255] 1 1 0 le_rfl).1,
   (c8_blur_invalid_radius [255, 0, 0, 255] 1 1 (-1) (by norm_num)).1⟩

/-- C9 (amended): for every non-empty body whose decode fails, the handler
still answers with status 200 and null width/height; the reported format is
the guessed one when the reader recognized a format, and "unknown" only
when it did not. -/
theorem c9_decode_failure_response (lib : ImageLib) (body : Buf) (fv : Option String)
    (hne : body ≠ [])
    (hguess : lib.withGuessedFormat body = some fv)
    (hdec : lib.decodeDims body = none) :
    (handleMeta lib body).status = 200 ∧
    (handleMeta lib body).imgWidth = none ∧
    (handleMeta lib body).imgHeight = none ∧
    (handleMeta lib body).format = fv.getD "unknown" := by
  have hpos : 0 < body.length := List.length_pos.mpr hne
  simp [handleMeta, hguess, hdec, hpos]

/-- C9 counterexample: a body carrying just the PNG signature — the format
is guessed ("png") but decoding fails, and the handler reports format
"png", not "unknown", refuting the claim's "format unknown on every decode
failure". -/
theorem c9_counterexample :
    pngMagic ≠ [] ∧
    pngStubLib.decodeDims pngMagic = none ∧
    (handleMeta pngStubLib pngMagic).imgWidth = none ∧
    (handleMeta pngStubLib pngMagic).imgHeight = none ∧
    (handleMeta pngStubLib pngMagic).format = "png" ∧
    (handleMeta pngStubLib pngMagic).format ≠ "unknown" :=
  ⟨by decide, rfl, rfl, rfl, rfl, by decide⟩

/-- C9 witness: the amended statement applied to the PNG-signature body. -/
theorem c9_decode_failure_response_witness :
    pngMagic ≠ [] ∧
    (handleMeta pngStubLib pngMagic).status = 200 ∧
    (handleMeta pngStubLib pngMagic).imgWidth = none ∧
    (handleMeta pngStubLib pngMagic).format = (some "png").getD "unknown" := by
  have h := c9_decode_failure_response pngStubLib pngMagic (some "png") (by decide) rfl rfl
  exact ⟨by decide, h.1, h.2.1, h.2.2.2⟩

/-- C10: with exact buffer length and no `u32` overflow in
`width * height * 4` (and, for crop, rectangle checks passing without
overflow), every slice index of the copy loops is in bounds: each operation
reaches the end of its loop and returns `Ok` (in the model, never `none`,
which is the out-of-bounds branch). -/
theorem c10_inbounds_safety (d : Buf) (w h x y cw ch : Nat)
    (hlen : d.length = w * h * 4) (hU : w * h * 4 < U32) :
    apply_horizontal d w h = some (.ok (flipHFn d w h)) ∧
    apply_vertical d w h = some (.ok (flipVFn d w h)) ∧
    rotate_90_cw d w h = some (.ok (rot90Fn d w h)) ∧
    rotate_180 d w h = some (.ok (rot180Fn d w h)) ∧
    rotate_270_cw d w h = some (.ok (rot270Fn d w h)) ∧
    (x + cw ≤ w → y + ch ≤ h → 0 < cw → 0 < ch →
      crop_apply d w h x y cw ch = some (.ok (cropFn d w x y cw ch))) :=
  ⟨apply_horizontal_ok d w h hlen hU, apply_vertical_ok d w h hlen hU,
   rotate_90_cw_ok d w h hlen hU, rotate_180_ok d w h hlen hU,
   rotate_270_cw_ok d w h hlen hU,
   fun h1 h2 h3 h4 => crop_apply_ok d w h x y cw ch hlen hU h1 h2 h3 h4⟩

/-- C10 witness: a 2-by-2 buffer; flip succeeds and a 1-by-1 crop at the
origin succeeds. -/
theorem c10_inbounds_safety_witness :
    apply_horizontal (List.replicate 16 7) 2 2 =
      some (.ok (flipHFn (List.replicate 16 7) 2 2)) ∧
    crop_apply (List.replicate 16 7) 2 2 0 0 1 1 =
      some (.ok (cropFn (List.replicate 16 7) 2 0 0 1 1)) :=
  ⟨(c10_inbounds_safety (List.replicate 16 7) 2 2 0 0 1 1 (by decide) (by decide)).1,
   (c10_inbounds_safety (List.replicate 16 7) 2 2 0 0 1 1 (by decide)
      (by decide)).2.2.2.2.2 (by decide) (by decide) (by decide) (by decide)⟩

end PixLab
